import Mathlib

/-!
Verification of the ZK-trap-grid repository's commitment, proof-splitting and
move-validation helpers.

The development shallowly embeds the TypeScript/JavaScript/bash helpers of the
repository into Lean:

* `trap-grid/trap-grid-merkle-root/scripts/helpers/generate_test_data.ts` —
  Poseidon-based Merkle tree builder and proof generator.  The Poseidon hash
  functions come from the external `poseidon-lite` package, so they are
  modelled as abstract parameters `H1 : Int → Int` and `H2 : Int → Int → Int`;
  the (true) fact that Poseidon outputs are nonzero field elements becomes the
  explicit hypotheses `h1nz`/`h2nz` where a proof needs it, because JavaScript
  treats the bigint `0n` as falsy in the `||` fallbacks of the source.
  JavaScript's "bigint or undefined" values are modelled as `Option Int`.

* `trap-grid-dapp-and-contracts/trap-grid-frontend/src/lib/utils.ts` — the
  frontend's string-placeholder hashes, cell index helpers and Merkle helpers.

* the bash `head -c`/`tail -c` prover-output split and the ABI public-input
  counter of the test scripts.

* the proof-generation entry points of the dapp (`generateProof`), whose
  external Noir/Barretenberg prover is modelled as an explicit `prover`
  function argument.

* `circuits/trap-commitment/scripts/helpers/build_public_inputs.ts` — the
  17-field, 32-byte big-endian public-input serialisation.
-/

namespace TrapGrid

/-- Grid side length; `GRID_SIZE = 8` in every component of the repository. -/
def GRID_SIZE : Nat := 8

/-- Number of cells, `NUM_CELLS = 64`. -/
def NUM_CELLS : Nat := 64

/-- Merkle tree depth, `MERKLE_TREE_DEPTH = 6`. -/
def MERKLE_TREE_DEPTH : Nat := 6

/-- `getCellIndex` from `utils.ts`: `x * GRID_SIZE + y` (row-major). -/
def getCellIndex (x y : Nat) : Nat := x * GRID_SIZE + y

/-- `getCoordinatesFromIndex` from `utils.ts`:
`x = Math.floor(index / GRID_SIZE)`, `y = index % GRID_SIZE`. -/
def getCoordinatesFromIndex (index : Nat) : Nat × Nat :=
  (index / GRID_SIZE, index % GRID_SIZE)

/-! ## JavaScript value helpers

JavaScript bigint array reads return either a bigint or `undefined`; this is
`Option Int` here.  `a || b` returns `b` when `a` is `undefined` or the falsy
bigint `0n`, and `a` otherwise. -/

/-- JavaScript `a || b` on "bigint or undefined" values. -/
def jsOr (a b : Option Int) : Option Int :=
  match a with
  | none => b
  | some v => if v = 0 then b else some v

section MerkleRootScript

/- Abstract stand-ins for `poseidon1`/`poseidon2` of the external
`poseidon-lite` package. -/
variable (H1 : Int → Int) (H2 : Int → Int → Int)

/-- `computeTrapCommitment` from `generate_test_data.ts`: the commitment of a
cell is `poseidon1([trap_value])`; the `leafIndex` parameter is accepted but
not used by the source. -/
def computeTrapCommitment (trapValue : Int) (leafIndex : Nat) : Int :=
  H1 trapValue

/-- The level-0 map `grid.map((trap, idx) => computeTrapCommitment(trap, idx))`,
carrying the running index. -/
def leafCommitmentsAux : Nat → List Int → List Int
  | _, [] => []
  | idx, t :: rest =>
      computeTrapCommitment H1 t idx :: leafCommitmentsAux (idx + 1) rest

/-- Leaf commitments of a grid, starting at index 0. -/
def leafCommitments (grid : List Int) : List Int :=
  leafCommitmentsAux H1 0 grid

/-- One bottom-up pairing pass of `buildMerkleTree`
(`for (i = 0; i < len; i += 2) { right = cur[i+1] || left; push(H2(left, right)) }`).
When the level has odd length the final read `cur[i+1]` is `undefined`, so the
last node is paired with itself; when `cur[i+1]` is the falsy bigint `0n` the
`||` also falls back to the left node. -/
def buildLevel : List Int → List Int
  | [] => []
  | [x] => [H2 x x]
  | x :: y :: rest => H2 x (if y = 0 then x else y) :: buildLevel rest

/-- The list `[level0, level1, ..., level n]` produced by iterating
`buildLevel` `n` times, with each intermediate level recorded (the source
pushes every level into `tree`). -/
def buildLevels : Nat → List Int → List (List Int)
  | 0, cur => [cur]
  | n + 1, cur => cur :: buildLevels n (buildLevel H2 cur)

/-- `buildMerkleTree` from `generate_test_data.ts`: leaf commitments followed
by `MERKLE_TREE_DEPTH = 6` pairing passes. -/
def buildMerkleTree (grid : List Int) : List (List Int) :=
  buildLevels H2 MERKLE_TREE_DEPTH (leafCommitments H1 grid)

/-- The root read `tree[tree.length - 1][0]` used by the script's `main`. -/
def treeRoot (tree : List (List Int)) : Option Int :=
  match tree.getLast? with
  | none => none
  | some lvl => lvl.get? 0

/-- `tree[level][idx]` as a JavaScript read: `undefined` out of range. -/
def levelGet (tree : List (List Int)) (lvl idx : Nat) : Option Int :=
  match tree.get? lvl with
  | none => none
  | some l => l.get? idx

/-- The loop body of `generateMerkleProof` from `generate_test_data.ts`:
starting at `level` with `fuel` iterations left and current index `curIdx`,
record `indices.push(curIdx % 2)` and
`siblings.push(tree[level][sibIdx] || tree[level][curIdx])`,
then continue with `curIdx / 2`. -/
def genProofAux (tree : List (List Int)) :
    Nat → Nat → Nat → List Nat × List (Option Int)
  | _, 0, _ => ([], [])
  | level, fuel + 1, curIdx =>
      let sibIdx := if curIdx % 2 = 1 then curIdx - 1 else curIdx + 1
      let bit : Nat := if curIdx % 2 = 1 then 1 else 0
      let sib := jsOr (levelGet tree level sibIdx) (levelGet tree level curIdx)
      let rest := genProofAux tree (level + 1) fuel (curIdx / 2)
      (bit :: rest.1, sib :: rest.2)

/-- `generateMerkleProof(tree, leafIndex)`: six levels, starting at level 0.
The first component is `indices` (path bits), the second `siblings`. -/
def generateMerkleProof (tree : List (List Int)) (leafIndex : Nat) :
    List Nat × List (Option Int) :=
  genProofAux tree 0 MERKLE_TREE_DEPTH leafIndex

/-- Recomputation of the root from a leaf value, path bits and siblings, with
the source's pairing order: a set bit means the current node was the right
child, so the parent is `H2 sibling current`, otherwise `H2 current sibling`.
An `undefined` sibling or a length mismatch yields `none`. -/
def recomputeRoot : Int → List Nat → List (Option Int) → Option Int
  | cur, [], [] => some cur
  | cur, b :: bs, some s :: ss =>
      recomputeRoot (if b = 1 then H2 s cur else H2 cur s) bs ss
  | _, _, _ => none

end MerkleRootScript

/-! ## Frontend helpers (`trap-grid-frontend/src/lib/utils.ts`)

The frontend uses string placeholder hashes. -/

/-- `hashTrapValue(trapValue, index)` from the frontend `utils.ts`:
`` `hash_${trapValue}_${index}` `` — it interpolates both the trap value and
the leaf index into the commitment string. -/
def hashTrapValue (trapValue : Int) (index : Nat) : String :=
  "hash_" ++ toString trapValue ++ "_" ++ toString index

/-- The frontend's internal pair hash `` `hash(${left},${right})` ``. -/
def hashPair (l r : String) : String :=
  "hash(" ++ l ++ "," ++ r ++ ")"

/-- The frontend leaf map `trapValues.map((value, index) => hashTrapValue(value, index))`. -/
def frontendLeavesAux : Nat → List Int → List String
  | _, [] => []
  | idx, t :: rest => hashTrapValue t idx :: frontendLeavesAux (idx + 1) rest

/-- Frontend leaf commitments, starting at index 0. -/
def frontendLeaves (trapValues : List Int) : List String :=
  frontendLeavesAux 0 trapValues

/-- One pairing pass of the frontend `buildMerkleTree`:
`right = i + 1 < currentLevel.length ? currentLevel[i+1] : left`, so the last
node of an odd level is paired with itself. -/
def frontendBuildLevel : List String → List String
  | [] => []
  | [x] => [hashPair x x]
  | x :: y :: rest => hashPair x y :: frontendBuildLevel rest

/-! ## Prover-output split (test scripts)

The bash test scripts split the combined prover output with
`head -c $PUB_BYTES` / `tail -c +$((PUB_BYTES + 1))` where
`PUB_BYTES = PUB_COUNT * 32` and `PUB_COUNT` is computed from the circuit's
ABI, never from the payload. -/

/-- The shape of a Noir ABI parameter type as inspected by the scripts:
either `p.type.kind === 'array'` with a `length`, or any other kind
(contributing one field). -/
inductive AbiType where
  | array (length : Nat) : AbiType
  | single : AbiType

/-- An ABI parameter: a visibility string plus a type shape. -/
structure AbiParam where
  visibility : String
  type : AbiType

/-- Field contribution of one parameter type:
`if (p.type.kind === 'array') n += p.type.length; else n += 1;`. -/
def abiTypeFieldCount : AbiType → Nat
  | .array n => n
  | .single => 1

/-- `PUB_COUNT`: sum of field counts over the parameters with
`visibility === 'public'`. -/
def pubCount (params : List AbiParam) : Nat :=
  (params.filter (fun p => p.visibility = "public")).foldl
    (fun n p => n + abiTypeFieldCount p.type) 0

/-- The deterministic split
`public_inputs = output[0 : k*32]`, `proof = output[k*32 : end]`
(`head -c $((k*32))` and `tail -c +$((k*32 + 1))`). -/
def splitProverOutput (k : Nat) (output : List Nat) : List Nat × List Nat :=
  (output.take (k * 32), output.drop (k * 32))

/-! ## Dapp proof generation

`generateProof` of `app/src/lib/defenderProof.ts` validates its inputs, then
invokes the external Noir/Barretenberg prover inside a `try` block; on any
prover error it falls back to dummy proof bytes.  The external prover is
modelled as an explicit function argument; `Except` models thrown errors. -/

/-- The result type mirroring `ZKProofData { proof, publicInputs }`,
with byte arrays as lists of byte values. -/
structure ZKProofData where
  proof : List Nat
  publicInputs : List Nat
deriving DecidableEq

/-- The inputs handed to the external prover by `generateProof`
(the position-movement circuit variant). -/
structure ProverInputs where
  trap_commitment : Int
  move_x : Int
  move_y : Int
  is_hit : Bool
  trap_value : Int
deriving DecidableEq

/-- `computeTrapCommitment(trapValue)` of `defenderProof.ts`: rejects values
other than 0/1, then `poseidonHash1(toField(trapValue))` (the Poseidon hash is
the abstract parameter `pHash`). -/
def computeTrapCommitmentPM (pHash : Int → Int) (trapValue : Int) :
    Except String Int :=
  if ¬(trapValue = 0 ∨ trapValue = 1) then
    .error "Trap value must be 0 or 1"
  else
    .ok (pHash trapValue)

/-- `generateProof(trapValue, moveX, moveY, isHit)` of `defenderProof.ts`:
sequential validation (trap value in {0,1}, coordinates in [0,8), claimed
result must match the trap value), then the commitment, then the external
prover; a prover error is caught and replaced by a dummy 2144-byte proof and
128 dummy public-input bytes. -/
def generateProof (pHash : Int → Int)
    (prover : ProverInputs → Except String ZKProofData)
    (trapValue moveX moveY : Int) (isHit : Bool) : Except String ZKProofData :=
  if ¬(trapValue = 0 ∨ trapValue = 1) then
    .error "Trap value must be 0 or 1"
  else if moveX < 0 ∨ 8 ≤ moveX then
    .error "Move X must be in range [0, 7]"
  else if moveY < 0 ∨ 8 ≤ moveY then
    .error "Move Y must be in range [0, 7]"
  else if (isHit ∧ ¬trapValue = 1) ∨ (¬isHit ∧ ¬trapValue = 0) then
    .error "Claimed result must match trap value"
  else
    match computeTrapCommitmentPM pHash trapValue with
    | .error e => .error e
    | .ok trapCommitment =>
        match prover ⟨trapCommitment, moveX, moveY, isHit, trapValue⟩ with
        | .ok proofData => .ok proofData
        | .error _ =>
            .ok ⟨List.replicate 2144 0, List.replicate 128 0⟩

/-- The demo `generateProof` of the frontend `lib/proof.ts`: it never contacts
a prover and always returns the placeholder bytes `[0,1,2,3]` /
`[0,0,0,0]`, whatever the move. -/
def generateProofDemo (trapValue moveX moveY : Int) (isHit : Bool)
    (trapMerkleRoot : String) (merkleIndices : List Nat)
    (merkleSiblings : List String) : ZKProofData :=
  ⟨[0x00, 0x01, 0x02, 0x03], [0x00, 0x00, 0x00, 0x00]⟩

/-! ## Client-side `makeMove` validation (`app/src/lib/stellar.ts`)

`makeMove` validates that `sessionId`, `x` and `y` are integers in the u32
range before building the transaction.  Integerness is captured by using
`Int`; the checks are `v < 0 || v > 4294967295`. -/

/-- The validation prefix of `makeMove(sessionId, x, y, ...)`. -/
def makeMoveCheck (sessionId x y : Int) : Except String Unit :=
  if sessionId < 0 ∨ sessionId > 4294967295 then
    .error "Invalid session ID"
  else if x < 0 ∨ x > 4294967295 then
    .error "Invalid x coordinate"
  else if y < 0 ∨ y > 4294967295 then
    .error "Invalid y coordinate"
  else
    .ok ()

/-! ## Public-input serialisation
(`circuits/trap-commitment/scripts/helpers/build_public_inputs.ts`)

Buffers are lists of byte values.  `beBytes w v` is the `w`-byte big-endian
encoding of `v mod 256^w`. -/

/-- Big-endian byte encoding of width `w`. -/
def beBytes (w : Nat) (v : Nat) : List Nat :=
  (List.range w).map (fun k => v / 256 ^ (w - 1 - k) % 256)

/-- Overwrite `bytes` into `buf` starting at `offset`
(`buf.write*` on a Node `Buffer`). -/
def writeAt (buf : List Nat) (offset : Nat) (bytes : List Nat) : List Nat :=
  buf.take offset ++ bytes ++ buf.drop (offset + bytes.length)

/-- `u32ToBytes32(value)`: a zeroed 32-byte buffer,
`writeBigUInt64BE(num >> 32n, 24)` then `writeUInt32BE(num & 0xFFFFFFFFn, 28)`. -/
def u32ToBytes32 (v : Nat) : List Nat :=
  writeAt (writeAt (List.replicate 32 0) 24 (beBytes 8 (v / 2 ^ 32)))
    28 (beBytes 4 (v % 2 ^ 32))

/-- `u1ToBytes32` delegates to `u32ToBytes32`. -/
def u1ToBytes32 (v : Nat) : List Nat := u32ToBytes32 v

/-- `fieldToBytes32` / `hexToBytes32`: the hex string is left-padded to 64
digits and decoded, i.e. a 32-byte big-endian encoding of the field value. -/
def fieldToBytes32 (v : Nat) : List Nat := beBytes 32 v

/-- The `public_inputs` section of `Prover.toml` as read by the script, with
hex/decimal strings already parsed to numbers. -/
structure PublicInputsToml where
  trap_merkle_root : Nat
  move_x : Nat
  move_y : Nat
  is_hit : Nat
  trap_merkle_proof_length : Nat
  trap_merkle_proof_indices : List Nat
  trap_merkle_proof_siblings : List Nat

/-- The 17 pushes into `fields`, in the declared parameter order:
`trap_merkle_root`, `move_x`, `move_y`, `is_hit`,
`trap_merkle_proof_length`, six proof indices (missing entries default to
`'0'`), six proof siblings (missing entries default to `'0x0'`). -/
def publicInputFields (pi : PublicInputsToml) : List (List Nat) :=
  [fieldToBytes32 pi.trap_merkle_root,
   u32ToBytes32 pi.move_x,
   u32ToBytes32 pi.move_y,
   u32ToBytes32 pi.is_hit,
   u32ToBytes32 pi.trap_merkle_proof_length] ++
  (List.range 6).map
    (fun i => u1ToBytes32 ((pi.trap_merkle_proof_indices.get? i).getD 0)) ++
  (List.range 6).map
    (fun i => fieldToBytes32 ((pi.trap_merkle_proof_siblings.get? i).getD 0))

/-- `Buffer.concat(fields)`: the serialised public-input byte string. -/
def buildPublicInputsBuffer (pi : PublicInputsToml) : List Nat :=
  (publicInputFields pi).flatten

/-! ## Theorems -/

/-- C10: the row-major flattening is a bijection between `[0,8) × [0,8)` and
`[0,64)`: `getCoordinatesFromIndex` inverts `getCellIndex` on in-range
coordinates, and `getCellIndex` inverts `getCoordinatesFromIndex` on in-range
indices. -/
theorem cell_index_round_trip (x y i : Nat) (hx : x < 8) (hy : y < 8)
    (hi : i < 64) :
    getCoordinatesFromIndex (getCellIndex x y) = (x, y) ∧
    getCellIndex (getCoordinatesFromIndex i).1 (getCoordinatesFromIndex i).2
      = i := by
  unfold getCoordinatesFromIndex getCellIndex GRID_SIZE
  refine ⟨Prod.ext ?_ ?_, ?_⟩ <;> simp <;> omega

/-- Witness for `cell_index_round_trip` at `(x, y) = (3, 4)` and `i = 29`. -/
theorem cell_index_round_trip_witness :
    getCoordinatesFromIndex (getCellIndex 3 4) = (3, 4) ∧
    getCellIndex (getCoordinatesFromIndex 29).1 (getCoordinatesFromIndex 29).2
      = 29 :=
  cell_index_round_trip 3 4 29 (by decide) (by decide) (by decide)

/-- C2: the prover-output split is deterministic: the public-input bytes are
exactly the first `k * 32` bytes and the proof bytes are exactly the rest,
where `k` is computed from the circuit ABI; together they reassemble the
output, and a 2240-byte output with `k = 3` splits into 96 and 2144 bytes. -/
theorem prover_output_split_spec (params : List AbiParam)
    (output : List Nat) :
    (splitProverOutput (pubCount params) output).1 ++
      (splitProverOutput (pubCount params) output).2 = output ∧
    (splitProverOutput (pubCount params) output).1 =
      output.take (pubCount params * 32) ∧
    (splitProverOutput (pubCount params) output).2 =
      output.drop (pubCount params * 32) ∧
    (pubCount params = 3 → output.length = 2240 →
      (splitProverOutput (pubCount params) output).1.length = 96 ∧
      (splitProverOutput (pubCount params) output).2.length = 2144) := by
  refine ⟨List.take_append_drop _ _, rfl, rfl, fun hk hlen => ?_⟩
  unfold splitProverOutput
  rw [hk]
  simp [hlen]

/-- Witness for `prover_output_split_spec`: an ABI with a public array of
length 2 and a public scalar gives `k = 3`, and a 2240-byte output splits
into 96 and 2144 bytes. -/
theorem prover_output_split_witness :
    (splitProverOutput
      (pubCount [⟨"public", .array 2⟩, ⟨"private", .single⟩,
        ⟨"public", .single⟩]) (List.replicate 2240 0)).1.length = 96 ∧
    (splitProverOutput
      (pubCount [⟨"public", .array 2⟩, ⟨"private", .single⟩,
        ⟨"public", .single⟩]) (List.replicate 2240 0)).2.length = 2144 :=
  (prover_output_split_spec _ _).2.2.2 rfl (List.length_replicate _ _)

/-- C9 counterexample: `makeMove`'s validation accepts the out-of-grid
coordinate `x = 8` (with `sessionId = 1`, `y = 0`), so moves with
coordinates outside `[0, 8)` are not rejected client-side. -/
theorem makeMove_accepts_out_of_grid : makeMoveCheck 1 8 0 = .ok () := by
  rfl

/-- C9 amended: `makeMoveCheck` accepts exactly the integer triples within the
u32 range `[0, 4294967295]` — it performs no `[0, 8)` grid check — while the
`[0, 8)` check is enforced by `generateProof`, which errors on any
out-of-grid coordinate before any prover involvement. -/
theorem makeMove_u32_validation (s x y : Int) :
    (makeMoveCheck s x y = .ok () ↔
      0 ≤ s ∧ s ≤ 4294967295 ∧ 0 ≤ x ∧ x ≤ 4294967295 ∧
      0 ≤ y ∧ y ≤ 4294967295) ∧
    (∀ (pHash : Int → Int)
      (prover : ProverInputs → Except String ZKProofData)
      (tv : Int) (ih : Bool), (x < 0 ∨ 8 ≤ x ∨ y < 0 ∨ 8 ≤ y) →
      ∃ msg, generateProof pHash prover tv x y ih = .error msg) := by
  constructor
  · unfold makeMoveCheck
    split_ifs with h1 h2 h3 <;>
      first
        | exact ⟨fun hh => by simp at hh, fun hb => absurd hb (by omega)⟩
        | exact ⟨fun _ => by omega, fun _ => rfl⟩
  · intro pHash prover tv ih hout
    unfold generateProof
    split_ifs with h1 h2 h3 h4 <;> try exact ⟨_, rfl⟩
    exact absurd hout (by omega)

/-- Witness for `makeMove_u32_validation`: in-range `(1, 2, 3)` is accepted,
and `generateProof` errors at the out-of-grid coordinate `x = 9`. -/
theorem makeMove_u32_validation_witness :
    makeMoveCheck 1 2 3 = .ok () ∧
    ∃ msg, generateProof id (fun _ => .error "no prover") 0 9 0 false
      = .error msg :=
  ⟨((makeMove_u32_validation 1 2 3).1).mpr (by decide),
   (makeMove_u32_validation 1 9 0).2 id (fun _ => .error "no prover") 0 false
     (by decide)⟩

/-- C5 counterexample: the frontend leaf commitment `hashTrapValue` binds the
leaf index as well as the cell value — two cells that both hold value 0, at
indices 0 and 1, receive different leaf commitments, so the claim does not
hold uniformly across every commitment builder. -/
theorem leaf_binding_counterexample :
    hashTrapValue 0 0 ≠ hashTrapValue 0 1 ∧
    (frontendLeaves (List.replicate 64 0)).get? 0 ≠
      (frontendLeaves (List.replicate 64 0)).get? 1 := by
  decide

/-- C5 amended: the Merkle-root script's `computeTrapCommitment` hashes only
the cell value (equal values give equal leaves, whatever the index), but this
is not uniform across the commitment builders: the frontend `hashTrapValue`
additionally binds the leaf index. -/
theorem leaf_binding_amended (H1 : Int → Int) (v : Int) (i j : Nat) :
    computeTrapCommitment H1 v i = computeTrapCommitment H1 v j ∧
    hashTrapValue 0 0 ≠ hashTrapValue 0 1 :=
  ⟨rfl, by decide⟩

/-- C3: `generateProof` fails fast on an inconsistent claim: whenever the
claimed `isHit` differs from `trapValue = 1`, it returns an error, and the
result does not depend on the external prover at all — the prover is never
consulted and no proof is produced. -/
theorem generateProof_fail_fast (pHash : Int → Int)
    (prover prover' : ProverInputs → Except String ZKProofData)
    (trapValue moveX moveY : Int) (isHit : Bool)
    (h : ¬(isHit = true ↔ trapValue = 1)) :
    (∃ msg, generateProof pHash prover trapValue moveX moveY isHit
      = .error msg) ∧
    generateProof pHash prover trapValue moveX moveY isHit =
      generateProof pHash prover' trapValue moveX moveY isHit := by
  unfold generateProof
  split_ifs with h1 h2 h3 h4 <;> try exact ⟨⟨_, rfl⟩, rfl⟩
  exfalso
  cases isHit with
  | false =>
      simp at h h4
      omega
  | true =>
      simp at h h4
      omega

/-- Witness for `generateProof_fail_fast`: claiming a miss (`isHit = false`)
on a trapped cell (`trapValue = 1`) is rejected independently of the prover. -/
theorem generateProof_fail_fast_witness :
    (∃ msg, generateProof id (fun _ => .ok ⟨[], []⟩) 1 0 0 false
      = .error msg) ∧
    generateProof id (fun _ => .ok ⟨[], []⟩) 1 0 0 false =
      generateProof id (fun _ => .error "e") 1 0 0 false :=
  generateProof_fail_fast id _ _ 1 0 0 false (by decide)

/-- C4 counterexample: with the external prover failing, `generateProof`
silently returns 2144 dummy proof bytes and 128 dummy public-input bytes
instead of propagating the error. -/
theorem placeholder_fallback_counterexample :
    generateProof id (fun _ => .error "prover unavailable") 1 0 0 true =
      .ok ⟨List.replicate 2144 0, List.replicate 128 0⟩ := by
  rfl

/-- C4 amended: proof generation does substitute placeholder bytes: on any
validated move whose prover invocation fails, `generateProof` catches the
error and returns the dummy 2144-byte proof with 128 dummy public-input
bytes, and the demo `generateProofDemo` returns fixed 4-byte placeholders for
every input without consulting any prover. -/
theorem placeholder_fallback_amended (pHash : Int → Int) (e : String)
    (tv x y : Int) (ih : Bool)
    (hv : tv = 0 ∨ tv = 1) (hx : 0 ≤ x ∧ x < 8) (hy : 0 ≤ y ∧ y < 8)
    (hmatch : ih = true ↔ tv = 1) :
    generateProof pHash (fun _ => .error e) tv x y ih =
      .ok ⟨List.replicate 2144 0, List.replicate 128 0⟩ ∧
    ∀ (root : String) (mi : List Nat) (ms : List String),
      generateProofDemo tv x y ih root mi ms =
        ⟨[0, 1, 2, 3], [0, 0, 0, 0]⟩ := by
  refine ⟨?_, fun root mi ms => rfl⟩
  have e1 : ¬¬(tv = 0 ∨ tv = 1) := not_not_intro hv
  have e2 : ¬(x < 0 ∨ 8 ≤ x) := by omega
  have e3 : ¬(y < 0 ∨ 8 ≤ y) := by omega
  have e4 : ¬((ih = true ∧ ¬tv = 1) ∨ (¬ih = true ∧ ¬tv = 0)) := by
    cases ih with
    | false => simp at hmatch ⊢; omega
    | true => simp at hmatch ⊢; omega
  have ecommit : computeTrapCommitmentPM pHash tv = .ok (pHash tv) := by
    unfold computeTrapCommitmentPM
    rw [if_neg e1]
  unfold generateProof
  rw [if_neg e1, if_neg e2, if_neg e3, if_neg e4, ecommit]

/-- Witness for `placeholder_fallback_amended`: a validated miss claim on an
untrapped cell with a failing prover yields the dummy bytes. -/
theorem placeholder_fallback_amended_witness :
    generateProof id (fun _ => .error "boom") 0 2 3 false =
      .ok ⟨List.replicate 2144 0, List.replicate 128 0⟩ :=
  (placeholder_fallback_amended id "boom" 0 2 3 false (by decide) (by decide)
    (by decide) (by decide)).1

/-! ## Merkle tree lemmas -/

section MerkleLemmas

variable (H1 : Int → Int) (H2 : Int → Int → Int)

/-- The index argument of `computeTrapCommitment` being unused, the level-0
map is just `map H1`. -/
theorem leafCommitmentsAux_eq_map (g : List Int) :
    ∀ n, leafCommitmentsAux H1 n g = g.map H1 := by
  induction g with
  | nil => intro n; rfl
  | cons t rest ih =>
      intro n
      simp [leafCommitmentsAux, computeTrapCommitment, ih]

/-- `leafCommitments` is `map H1`. -/
theorem leafCommitments_eq_map (g : List Int) :
    leafCommitments H1 g = g.map H1 :=
  leafCommitmentsAux_eq_map H1 g 0

/-- A pairing pass halves an even level. -/
theorem buildLevel_length :
    ∀ (m : Nat) (cur : List Int), cur.length = 2 * m →
    (buildLevel H2 cur).length = m := by
  intro m
  induction m with
  | zero =>
      intro cur h
      cases cur with
      | nil => rfl
      | cons a t => simp at h
  | succ m ih =>
      intro cur h
      match cur with
      | [] => simp at h
      | [a] => simp at h; omega
      | a :: b :: rest =>
          have hr : rest.length = 2 * m := by
            simp at h; omega
          simp [buildLevel, ih rest hr]

/-- Every node produced by a pairing pass is an `H2` image, hence nonzero
when `H2` never returns zero. -/
theorem buildLevel_nonzero (h2nz : ∀ a b, H2 a b ≠ 0) :
    ∀ (cur : List Int), ∀ z ∈ buildLevel H2 cur, z ≠ 0
  | [] => by simp [buildLevel]
  | [x] => by
      intro z hz
      simp [buildLevel] at hz
      subst hz
      exact h2nz x x
  | x :: y :: rest => by
      intro z hz
      simp only [buildLevel, List.mem_cons] at hz
      rcases hz with h | h
      · subst h; exact h2nz _ _
      · exact buildLevel_nonzero h2nz rest z h

/-- Entry `i` of a pairing pass is `H2 cur[2i] cur[2i+1]` whenever both reads
succeed and the right node is nonzero (so the `||` fallback stays inert). -/
theorem buildLevel_get :
    ∀ (i : Nat) (cur : List Int) (x y : Int),
    cur.get? (2 * i) = some x → cur.get? (2 * i + 1) = some y → y ≠ 0 →
    (buildLevel H2 cur).get? i = some (H2 x y) := by
  intro i
  induction i with
  | zero =>
      intro cur x y hx hy hyne
      match cur with
      | [] => simp at hx
      | [a] => simp at hy
      | a :: b :: rest =>
          simp at hx hy
          subst hx; subst hy
          simp [buildLevel, if_neg hyne]
  | succ i ih =>
      intro cur x y hx hy hyne
      match cur with
      | [] => simp at hx
      | [a] =>
          rw [show 2 * (i + 1) = 2 * i + 1 + 1 by ring] at hx
          simp at hx
      | a :: b :: rest =>
          have hx' : rest.get? (2 * i) = some x := by
            rw [show 2 * (i + 1) = 2 * i + 1 + 1 by ring] at hx
            simpa using hx
          have hy' : rest.get? (2 * i + 1) = some y := by
            rw [show 2 * (i + 1) + 1 = (2 * i + 1) + 1 + 1 by ring] at hy
            simpa using hy
          simpa [buildLevel] using ih rest x y hx' hy' hyne

/-- `buildLevels` always produces its seed level first. -/
theorem buildLevels_cons_form :
    ∀ (d : Nat) (cur : List Int), ∃ t, buildLevels H2 d cur = cur :: t := by
  intro d cur
  cases d with
  | zero => exact ⟨[], rfl⟩
  | succ d => exact ⟨buildLevels H2 d (buildLevel H2 cur), rfl⟩

/-- Dropping the first level of a `(d+1)`-deep tree keeps the root. -/
theorem treeRoot_step (d : Nat) (cur : List Int) :
    treeRoot (buildLevels H2 (d + 1) cur) =
      treeRoot (buildLevels H2 d (buildLevel H2 cur)) := by
  obtain ⟨t, ht⟩ := buildLevels_cons_form H2 d (buildLevel H2 cur)
  show treeRoot (cur :: buildLevels H2 d (buildLevel H2 cur)) = _
  rw [ht]
  unfold treeRoot
  rw [List.getLast?_cons_cons]

/-- Walking the proof generator from level `lvl + 1` over a tree with an
extra bottom row is the same as walking from level `lvl` without it. -/
theorem genProofAux_shift :
    ∀ (fuel lvl i : Nat) (row : List Int) (rest : List (List Int)),
    genProofAux (row :: rest) (lvl + 1) fuel i =
      genProofAux rest lvl fuel i := by
  intro fuel
  induction fuel with
  | zero => intro lvl i row rest; rfl
  | succ fuel ih =>
      intro lvl i row rest
      simp only [genProofAux, levelGet, List.get?_cons_succ]
      rw [ih]

/-- The path bits recorded by the proof generator are the binary digits of
the leaf index: bit `j` is `i / 2^j % 2` (the index is halved per level). -/
theorem genProofAux_bits :
    ∀ (fuel lvl i : Nat) (tree : List (List Int)),
    (genProofAux tree lvl fuel i).1 =
      (List.range fuel).map (fun j => i / 2 ^ j % 2) := by
  intro fuel
  induction fuel with
  | zero => intro lvl i tree; rfl
  | succ fuel ih =>
      intro lvl i tree
      rw [List.range_succ_eq_map]
      simp only [genProofAux, List.map_cons, List.map_map]
      refine List.cons_eq_cons.mpr ⟨?_, ?_⟩
      · rcases Nat.mod_two_eq_zero_or_one i with h | h <;> simp [h]
      · rw [ih]
        apply List.map_congr_left
        intro j hj
        simp only [Function.comp]
        rw [Nat.div_div_eq_div_mul, pow_succ, Nat.mul_comm 2 (2 ^ j)]

/-- Round-trip over a power-of-two level: recomputing from any leaf with the
generated path bits and siblings reaches the root, provided every node is
nonzero (so the JavaScript `||` fallbacks never fire). -/
theorem merkle_roundtrip_aux (h2nz : ∀ a b, H2 a b ≠ 0) :
    ∀ (d : Nat) (cur : List Int), (∀ z ∈ cur, z ≠ 0) → cur.length = 2 ^ d →
    ∀ (i : Nat) (x : Int), i < 2 ^ d → cur.get? i = some x →
    recomputeRoot H2 x (genProofAux (buildLevels H2 d cur) 0 d i).1
      (genProofAux (buildLevels H2 d cur) 0 d i).2 =
    treeRoot (buildLevels H2 d cur) := by
  intro d
  induction d with
  | zero =>
      intro cur hnz hlen i x hi hx
      rw [pow_zero] at hi hlen
      have hi0 : i = 0 := by omega
      subst hi0
      cases cur with
      | nil => simp at hx
      | cons a t =>
          have ht : t = [] := by simpa using hlen
          subst ht
          simp at hx
          subst hx
          simp [genProofAux, recomputeRoot, treeRoot, buildLevels]
  | succ d ih =>
      intro cur hnz hlen i x hi hx
      have hpow : (2 : Nat) ^ (d + 1) = 2 * 2 ^ d := by rw [pow_succ]; ring
      have hnextlen : (buildLevel H2 cur).length = 2 ^ d :=
        buildLevel_length H2 (2 ^ d) cur (by omega)
      have hnextnz : ∀ z ∈ buildLevel H2 cur, z ≠ 0 :=
        buildLevel_nonzero H2 h2nz cur
      have hxin : i < cur.length := by omega
      rcases Nat.mod_two_eq_zero_or_one i with hpar | hpar
      · -- left child: the sibling is at `i + 1`
        have hsiblt : i + 1 < cur.length := by omega
        obtain ⟨y, hy⟩ : ∃ y, cur.get? (i + 1) = some y :=
          ⟨_, List.get?_eq_get hsiblt⟩
        have hyne : y ≠ 0 := hnz y (List.get?_mem hy)
        have hparent : (buildLevel H2 cur).get? (i / 2) = some (H2 x y) := by
          apply buildLevel_get H2 (i / 2) cur x y ?_ ?_ hyne
          · rw [show 2 * (i / 2) = i by omega]; exact hx
          · rw [show 2 * (i / 2) + 1 = i + 1 by omega]; exact hy
        have hstep : genProofAux (buildLevels H2 (d + 1) cur) 0 (d + 1) i =
            (0 :: (genProofAux (buildLevels H2 d (buildLevel H2 cur)) 0 d
                (i / 2)).1,
             some y :: (genProofAux (buildLevels H2 d (buildLevel H2 cur)) 0 d
                (i / 2)).2) := by
          show genProofAux (cur :: buildLevels H2 d (buildLevel H2 cur)) 0
            (d + 1) i = _
          have hy' : cur[i + 1]? = some y := by simpa using hy
          rw [genProofAux]
          rw [genProofAux_shift]
          simp [levelGet, hpar, jsOr, hy', hyne]
        rw [hstep]
        simp only [recomputeRoot]
        norm_num
        rw [treeRoot_step]
        exact ih (buildLevel H2 cur) hnextnz hnextlen (i / 2) (H2 x y)
          (by omega) hparent
      · -- right child: the sibling is at `i - 1`
        have hsiblt : i - 1 < cur.length := by omega
        obtain ⟨y, hy⟩ : ∃ y, cur.get? (i - 1) = some y :=
          ⟨_, List.get?_eq_get hsiblt⟩
        have hyne : y ≠ 0 := hnz y (List.get?_mem hy)
        have hxne : x ≠ 0 := hnz x (List.get?_mem hx)
        have hparent : (buildLevel H2 cur).get? (i / 2) = some (H2 y x) := by
          apply buildLevel_get H2 (i / 2) cur y x ?_ ?_ hxne
          · rw [show 2 * (i / 2) = i - 1 by omega]; exact hy
          · rw [show 2 * (i / 2) + 1 = i by omega]; exact hx
        have hstep : genProofAux (buildLevels H2 (d + 1) cur) 0 (d + 1) i =
            (1 :: (genProofAux (buildLevels H2 d (buildLevel H2 cur)) 0 d
                (i / 2)).1,
             some y :: (genProofAux (buildLevels H2 d (buildLevel H2 cur)) 0 d
                (i / 2)).2) := by
          show genProofAux (cur :: buildLevels H2 d (buildLevel H2 cur)) 0
            (d + 1) i = _
          have hy' : cur[i - 1]? = some y := by simpa using hy
          rw [genProofAux]
          rw [genProofAux_shift]
          simp [levelGet, hpar, jsOr, hy', hyne]
        rw [hstep]
        simp only [recomputeRoot]
        norm_num
        rw [treeRoot_step]
        exact ih (buildLevel H2 cur) hnextnz hnextlen (i / 2) (H2 y x)
          (by omega) hparent

/-- One-step unfolding of the bit list. -/
theorem genProofAux_fst_cons (tree : List (List Int)) (lvl fuel i : Nat) :
    (genProofAux tree lvl (fuel + 1) i).1 =
      (if i % 2 = 1 then 1 else 0) ::
        (genProofAux tree (lvl + 1) fuel (i / 2)).1 := rfl

/-- One-step unfolding of the sibling list. -/
theorem genProofAux_snd_cons (tree : List (List Int)) (lvl fuel i : Nat) :
    (genProofAux tree lvl (fuel + 1) i).2 =
      jsOr (levelGet tree lvl (if i % 2 = 1 then i - 1 else i + 1))
        (levelGet tree lvl i) ::
        (genProofAux tree (lvl + 1) fuel (i / 2)).2 := rfl

/-- On an odd level the builder pairs the last node with itself:
entry `m` of the pass over a `(2m+1)`-list is `H2 last last`. -/
theorem buildLevel_odd_last :
    ∀ (m : Nat) (cur : List Int), cur.length = 2 * m + 1 →
    ∃ z, cur.get? (2 * m) = some z ∧
      (buildLevel H2 cur).get? m = some (H2 z z) := by
  intro m
  induction m with
  | zero =>
      intro cur h
      cases cur with
      | nil => simp at h
      | cons a t =>
          have ht : t = [] := by simpa using h
          subst ht
          exact ⟨a, rfl, rfl⟩
  | succ m ih =>
      intro cur h
      match cur with
      | [] => simp at h
      | [a] => simp at h
      | a :: b :: rest =>
          have hr : rest.length = 2 * m + 1 := by simp at h; omega
          obtain ⟨z, hz1, hz2⟩ := ih rest hr
          refine ⟨z, ?_, ?_⟩
          · rw [show 2 * (m + 1) = 2 * m + 1 + 1 by ring]
            simpa using hz1
          · simpa [buildLevel] using hz2

/-- Frontend variant of the duplicate-self rule on odd levels. -/
theorem frontendBuildLevel_odd_last :
    ∀ (m : Nat) (cur : List String), cur.length = 2 * m + 1 →
    ∃ z, cur.get? (2 * m) = some z ∧
      (frontendBuildLevel cur).get? m = some (hashPair z z) := by
  intro m
  induction m with
  | zero =>
      intro cur h
      cases cur with
      | nil => simp at h
      | cons a t =>
          have ht : t = [] := by simpa using h
          subst ht
          exact ⟨a, rfl, rfl⟩
  | succ m ih =>
      intro cur h
      match cur with
      | [] => simp at h
      | [a] => simp at h
      | a :: b :: rest =>
          have hr : rest.length = 2 * m + 1 := by simp at h; omega
          obtain ⟨z, hz1, hz2⟩ := ih rest hr
          refine ⟨z, ?_, ?_⟩
          · rw [show 2 * (m + 1) = 2 * m + 1 + 1 by ring]
            simpa using hz1
          · simpa [frontendBuildLevel] using hz2

/-- For a leaf index at or beyond the level size, every recorded sibling is
`undefined` (`none`): both the sibling and the fallback read miss the level. -/
theorem genProofAux_oob :
    ∀ (d : Nat) (cur : List Int) (i : Nat), cur.length = 2 ^ d → 2 ^ d ≤ i →
    (genProofAux (buildLevels H2 d cur) 0 d i).2 =
      List.replicate d none := by
  intro d
  induction d with
  | zero => intro cur i _ _; rfl
  | succ d ih =>
      intro cur i hlen hi
      have hpow : (2 : Nat) ^ (d + 1) = 2 * 2 ^ d := by rw [pow_succ]; ring
      have hcurnone : levelGet (buildLevels H2 (d + 1) cur) 0 i = none := by
        show cur.get? i = none
        rw [List.get?_eq_none]
        omega
      have hsibnone : levelGet (buildLevels H2 (d + 1) cur) 0
          (if i % 2 = 1 then i - 1 else i + 1) = none := by
        show cur.get? (if i % 2 = 1 then i - 1 else i + 1) = none
        rcases Nat.mod_two_eq_zero_or_one i with h | h
        · rw [if_neg (by omega : ¬i % 2 = 1), List.get?_eq_none]
          omega
        · rw [if_pos h, List.get?_eq_none]
          omega
      show (genProofAux (cur :: buildLevels H2 d (buildLevel H2 cur)) 0
        (d + 1) i).2 = _
      rw [show (genProofAux (cur :: buildLevels H2 d (buildLevel H2 cur)) 0
            (d + 1) i).2 =
          (genProofAux (buildLevels H2 (d + 1) cur) 0 (d + 1) i).2 from rfl]
      rw [genProofAux_snd_cons, hsibnone, hcurnone]
      show (jsOr none none) ::
        (genProofAux (buildLevels H2 (d + 1) cur) (0 + 1) d (i / 2)).2 = _
      rw [show genProofAux (buildLevels H2 (d + 1) cur) (0 + 1) d (i / 2) =
          genProofAux (buildLevels H2 d (buildLevel H2 cur)) 0 d (i / 2) from
        genProofAux_shift d 0 (i / 2) cur _]
      rw [ih (buildLevel H2 cur) (i / 2)
        (buildLevel_length H2 (2 ^ d) cur (by omega)) (by omega)]
      rfl

/-- The sibling recorded at level `j` is the actual tree node at index
`(i / 2^j) ± 1` (per the direction bit), with no fallback, as long as every
node is nonzero and the index is in range. -/
theorem genProofAux_sibling (h2nz : ∀ a b, H2 a b ≠ 0) :
    ∀ (d : Nat) (cur : List Int), (∀ z ∈ cur, z ≠ 0) → cur.length = 2 ^ d →
    ∀ (i j : Nat), i < 2 ^ d → j < d →
    ∃ s, levelGet (buildLevels H2 d cur) j
        (if i / 2 ^ j % 2 = 1 then i / 2 ^ j - 1 else i / 2 ^ j + 1)
        = some s ∧
      (genProofAux (buildLevels H2 d cur) 0 d i).2.get? j = some (some s) := by
  intro d
  induction d with
  | zero =>
      intro cur _ _ i j _ hj
      exact absurd hj (by omega)
  | succ d ih =>
      intro cur hnz hlen i j hi hj
      have hpow : (2 : Nat) ^ (d + 1) = 2 * 2 ^ d := by rw [pow_succ]; ring
      cases j with
      | zero =>
          rw [pow_zero, Nat.div_one]
          rcases Nat.mod_two_eq_zero_or_one i with hpar | hpar
          · have hsiblt : i + 1 < cur.length := by omega
            obtain ⟨y, hy⟩ : ∃ y, cur.get? (i + 1) = some y :=
              ⟨_, List.get?_eq_get hsiblt⟩
            have hyne : y ≠ 0 := hnz y (List.get?_mem hy)
            refine ⟨y, ?_, ?_⟩
            · rw [if_neg (by omega : ¬i % 2 = 1)]
              exact hy
            · rw [genProofAux_snd_cons, List.get?_cons_zero,
                if_neg (by omega : ¬i % 2 = 1)]
              rw [show levelGet (buildLevels H2 (d + 1) cur) 0 (i + 1)
                  = some y from hy]
              simp [jsOr, hyne]
          · have hsiblt : i - 1 < cur.length := by omega
            obtain ⟨y, hy⟩ : ∃ y, cur.get? (i - 1) = some y :=
              ⟨_, List.get?_eq_get hsiblt⟩
            have hyne : y ≠ 0 := hnz y (List.get?_mem hy)
            refine ⟨y, ?_, ?_⟩
            · rw [if_pos hpar]
              exact hy
            · rw [genProofAux_snd_cons, List.get?_cons_zero, if_pos hpar]
              rw [show levelGet (buildLevels H2 (d + 1) cur) 0 (i - 1)
                  = some y from hy]
              simp [jsOr, hyne]
      | succ j =>
          have hidx : i / 2 ^ (j + 1) = i / 2 / 2 ^ j := by
            rw [Nat.div_div_eq_div_mul, pow_succ, Nat.mul_comm]
          obtain ⟨s, hs1, hs2⟩ := ih (buildLevel H2 cur)
            (buildLevel_nonzero H2 h2nz cur)
            (buildLevel_length H2 (2 ^ d) cur (by omega))
            (i / 2) j (by omega) (by omega)
          refine ⟨s, ?_, ?_⟩
          · rw [hidx]
            exact hs1
          · rw [genProofAux_snd_cons, List.get?_cons_succ]
            rw [show genProofAux (buildLevels H2 (d + 1) cur) (0 + 1) d (i / 2)
                = genProofAux (buildLevels H2 d (buildLevel H2 cur)) 0 d
                  (i / 2) from genProofAux_shift d 0 (i / 2) cur _]
            exact hs2

/-- C1: Merkle round-trip.  For every 8×8 boolean grid and every leaf index
`i < 64`, recomputing the path from the leaf commitment of cell `i` upward,
using the siblings and path bits returned by
`generateMerkleProof (buildMerkleTree grid) i` with the source's pairing order
and duplicate-self rule, yields exactly the root stored at the top level of
the tree.  The Poseidon hashes are abstract; `h1nz`/`h2nz` record that they
never produce the falsy field element `0`. -/
theorem merkle_roundtrip (h1nz : ∀ v, H1 v ≠ 0) (h2nz : ∀ a b, H2 a b ≠ 0)
    (grid : List Int) (hlen : grid.length = 64)
    (hbool : ∀ v ∈ grid, v = 0 ∨ v = 1) (i : Nat) (hi : i < 64) :
    recomputeRoot H2 (computeTrapCommitment H1 (grid.getD i 0) i)
      (generateMerkleProof (buildMerkleTree H1 H2 grid) i).1
      (generateMerkleProof (buildMerkleTree H1 H2 grid) i).2 =
    treeRoot (buildMerkleTree H1 H2 grid) := by
  have hmap := leafCommitments_eq_map H1 grid
  have hlenL : (leafCommitments H1 grid).length = 2 ^ 6 := by
    rw [hmap, List.length_map, hlen]
    norm_num
  have hnzL : ∀ z ∈ leafCommitments H1 grid, z ≠ 0 := by
    rw [hmap]
    intro z hz
    obtain ⟨v, hv, rfl⟩ := List.mem_map.mp hz
    exact h1nz v
  obtain ⟨v, hv⟩ : ∃ v, grid.get? i = some v :=
    ⟨_, List.get?_eq_get (by omega)⟩
  have hv2 : grid[i]? = some v := by simpa using hv
  have hgetD : grid.getD i 0 = v := by
    simp [List.getD_eq_getElem?_getD, hv2]
  have hleaf : (leafCommitments H1 grid).get? i = some (H1 v) := by
    rw [hmap, List.get?_map, hv]
    rfl
  have hmain := merkle_roundtrip_aux H2 h2nz 6 (leafCommitments H1 grid)
    hnzL hlenL i (H1 v) (by norm_num; omega) hleaf
  rw [hgetD]
  exact hmain

/-- Witness for `merkle_roundtrip`: concrete nonzero hashes, the grid with a
single trap at cell 10, and leaf index 10. -/
theorem merkle_roundtrip_witness :
    recomputeRoot (fun a b => 2 * a + 2 * b + 1)
      (computeTrapCommitment (fun v => 2 * v + 1)
        (((List.replicate 64 (0 : Int)).set 10 1).getD 10 0) 10)
      (generateMerkleProof
        (buildMerkleTree (fun v => 2 * v + 1) (fun a b => 2 * a + 2 * b + 1)
          ((List.replicate 64 (0 : Int)).set 10 1)) 10).1
      (generateMerkleProof
        (buildMerkleTree (fun v => 2 * v + 1) (fun a b => 2 * a + 2 * b + 1)
          ((List.replicate 64 (0 : Int)).set 10 1)) 10).2 =
    treeRoot (buildMerkleTree (fun v => 2 * v + 1)
      (fun a b => 2 * a + 2 * b + 1)
      ((List.replicate 64 (0 : Int)).set 10 1)) :=
  merkle_roundtrip (fun v => 2 * v + 1) (fun a b => 2 * a + 2 * b + 1)
    (by intro v; show 2 * v + 1 ≠ 0; omega) (by intro a b; show 2 * a + 2 * b + 1 ≠ 0; omega)
    ((List.replicate 64 (0 : Int)).set 10 1) (by simp)
    (by
      intro v hv
      rcases List.mem_or_eq_of_mem_set hv with h | h
      · exact Or.inl (List.eq_of_mem_replicate h)
      · exact Or.inr h) 10 (by decide)

/-- C6: duplicate-self pairing and path bits.  (1) The Merkle-root script's
level builder pairs the last node of an odd level with itself; (2) so does the
frontend's level builder; (3) the proof generator's direction bit at level `j`
is `(i / 2^j) % 2` — the current index mod 2, with the index halved at each
level; (4) the sibling it records at level `j` is the tree node at the
adjacent index `(i / 2^j) ∓ 1`. -/
theorem merkle_pairing_and_path_bits (h1nz : ∀ v, H1 v ≠ 0)
    (h2nz : ∀ a b, H2 a b ≠ 0) :
    (∀ (cur : List Int) (m : Nat), cur.length = 2 * m + 1 →
      ∃ z, cur.get? (2 * m) = some z ∧
        (buildLevel H2 cur).get? m = some (H2 z z)) ∧
    (∀ (cur : List String) (m : Nat), cur.length = 2 * m + 1 →
      ∃ z, cur.get? (2 * m) = some z ∧
        (frontendBuildLevel cur).get? m = some (hashPair z z)) ∧
    (∀ (tree : List (List Int)) (i : Nat),
      (generateMerkleProof tree i).1 =
        (List.range MERKLE_TREE_DEPTH).map (fun j => i / 2 ^ j % 2)) ∧
    (∀ (grid : List Int) (i j : Nat), grid.length = 64 → i < 64 → j < 6 →
      ∃ s, levelGet (buildMerkleTree H1 H2 grid) j
          (if i / 2 ^ j % 2 = 1 then i / 2 ^ j - 1 else i / 2 ^ j + 1)
          = some s ∧
        (generateMerkleProof (buildMerkleTree H1 H2 grid) i).2.get? j
          = some (some s)) := by
  refine ⟨fun cur m h => buildLevel_odd_last H2 m cur h,
    fun cur m h => frontendBuildLevel_odd_last m cur h,
    fun tree i => genProofAux_bits MERKLE_TREE_DEPTH 0 i tree,
    fun grid i j hlen hi hj => ?_⟩
  have hmap := leafCommitments_eq_map H1 grid
  have hlenL : (leafCommitments H1 grid).length = 2 ^ 6 := by
    rw [hmap, List.length_map, hlen]
    norm_num
  have hnzL : ∀ z ∈ leafCommitments H1 grid, z ≠ 0 := by
    rw [hmap]
    intro z hz
    obtain ⟨v, hv, rfl⟩ := List.mem_map.mp hz
    exact h1nz v
  exact genProofAux_sibling H2 h2nz 6 (leafCommitments H1 grid) hnzL hlenL
    i j (by norm_num; omega) (by omega)

/-- Witness for `merkle_pairing_and_path_bits`: the odd 3-node level
`[5, 7, 9]` pairs `9` with itself, and at leaf 13 of the one-trap tree the
level-2 sibling is an actual tree node. -/
theorem merkle_pairing_and_path_bits_witness :
    (∃ z, ([5, 7, 9] : List Int).get? 2 = some z ∧
      (buildLevel (fun a b => 2 * a + 2 * b + 1) [5, 7, 9]).get? 1 =
        some ((fun a b => 2 * a + 2 * b + 1) z z)) ∧
    (∃ s, levelGet (buildMerkleTree (fun v => 2 * v + 1)
        (fun a b => 2 * a + 2 * b + 1)
        ((List.replicate 64 (0 : Int)).set 10 1)) 2
        (if 13 / 2 ^ 2 % 2 = 1 then 13 / 2 ^ 2 - 1 else 13 / 2 ^ 2 + 1)
        = some s ∧
      (generateMerkleProof (buildMerkleTree (fun v => 2 * v + 1)
        (fun a b => 2 * a + 2 * b + 1)
        ((List.replicate 64 (0 : Int)).set 10 1)) 13).2.get? 2
        = some (some s)) :=
  ⟨(merkle_pairing_and_path_bits (fun v => 2 * v + 1)
      (fun a b => 2 * a + 2 * b + 1) (by intro v; show 2 * v + 1 ≠ 0; omega)
      (by intro a b; show 2 * a + 2 * b + 1 ≠ 0; omega)).1 [5, 7, 9] 1 (by decide),
   (merkle_pairing_and_path_bits (fun v => 2 * v + 1)
      (fun a b => 2 * a + 2 * b + 1) (by intro v; show 2 * v + 1 ≠ 0; omega)
      (by intro a b; show 2 * a + 2 * b + 1 ≠ 0; omega)).2.2.2
      ((List.replicate 64 (0 : Int)).set 10 1) 13 2 (by simp)
      (by decide) (by decide)⟩

/-- C7 counterexample: at the out-of-range leaf index 64 (on the all-miss
grid's tree, with concrete nonzero hashes) `generateMerkleProof` does not
fail — it returns a proof object, whose six siblings are all `undefined`. -/
theorem genProof_out_of_range_counterexample :
    generateMerkleProof
      (buildMerkleTree (fun v => 2 * v + 1) (fun a b => 2 * a + 2 * b + 1)
        (List.replicate 64 (0 : Int))) 64 =
    (List.replicate 6 0, List.replicate 6 none) := by
  decide

/-- C7 amended: `generateMerkleProof` performs no range check.  For every
leaf index `≥ 64` over a 64-cell grid's tree it still returns a proof
object: the path bits of the index together with six `undefined` siblings
(range validation exists only in the script's `main`, which rejects move
coordinates outside the grid before any index is formed). -/
theorem genProof_out_of_range (grid : List Int) (i : Nat)
    (hlen : grid.length = 64) (hi : 64 ≤ i) :
    generateMerkleProof (buildMerkleTree H1 H2 grid) i =
      ((List.range MERKLE_TREE_DEPTH).map (fun j => i / 2 ^ j % 2),
        List.replicate MERKLE_TREE_DEPTH none) := by
  have hmap := leafCommitments_eq_map H1 grid
  have hlenL : (leafCommitments H1 grid).length = 2 ^ 6 := by
    rw [hmap, List.length_map, hlen]
    norm_num
  have h2 := genProofAux_oob H2 6 (leafCommitments H1 grid) i hlenL
    (by norm_num; omega)
  have h1 := genProofAux_bits MERKLE_TREE_DEPTH 0 i
    (buildMerkleTree H1 H2 grid)
  exact Prod.ext h1 h2

/-- Witness for `genProof_out_of_range` at index 100 over the all-miss grid. -/
theorem genProof_out_of_range_witness :
    generateMerkleProof
      (buildMerkleTree (fun v => 2 * v + 1) (fun a b => 2 * a + 2 * b + 1)
        (List.replicate 64 (0 : Int))) 100 =
      ((List.range MERKLE_TREE_DEPTH).map (fun j => 100 / 2 ^ j % 2),
        List.replicate MERKLE_TREE_DEPTH none) :=
  genProof_out_of_range (fun v => 2 * v + 1) (fun a b => 2 * a + 2 * b + 1)
    (List.replicate 64 (0 : Int)) 100 (by simp) (by omega)

end MerkleLemmas

/-! ## Public-input serialisation lemmas -/

/-- `beBytes` has the requested width. -/
theorem beBytes_length (w v : Nat) : (beBytes w v).length = w := by
  simp [beBytes]

/-- An in-bounds buffer write preserves the length. -/
theorem writeAt_length (buf : List Nat) (o : Nat) (bs : List Nat)
    (h : o + bs.length ≤ buf.length) :
    (writeAt buf o bs).length = buf.length := by
  simp [writeAt]
  omega

/-- `u32ToBytes32` always yields 32 bytes. -/
theorem u32ToBytes32_length (v : Nat) : (u32ToBytes32 v).length = 32 := by
  have hle1 : 24 + (beBytes 8 (v / 2 ^ 32)).length ≤
      (List.replicate 32 (0 : Nat)).length := by
    simp [beBytes_length]
  have h1 := writeAt_length (List.replicate 32 0) 24
    (beBytes 8 (v / 2 ^ 32)) hle1
  rw [List.length_replicate] at h1
  have hle2 : 28 + (beBytes 4 (v % 2 ^ 32)).length ≤
      (writeAt (List.replicate 32 0) 24 (beBytes 8 (v / 2 ^ 32))).length := by
    rw [beBytes_length, h1]
  have h2 := writeAt_length _ 28 _ hle2
  rw [h1] at h2
  exact h2

/-- For a u32 value, the serialised field is 28 zero bytes followed by the
4-byte big-endian value: the value sits right-aligned in the 32 bytes. -/
theorem u32ToBytes32_right_aligned (v : Nat) (h : v < 2 ^ 32) :
    u32ToBytes32 v = List.replicate 28 0 ++ beBytes 4 v := by
  unfold u32ToBytes32
  rw [Nat.div_eq_of_lt h, Nat.mod_eq_of_lt h]
  rw [show beBytes 8 0 = List.replicate 8 0 by decide]
  rw [show writeAt (List.replicate 32 0) 24 (List.replicate 8 0) =
      List.replicate 32 0 by decide]
  unfold writeAt
  rw [beBytes_length]
  rw [show (28 : Nat) + 4 = 32 from rfl]
  simp [List.take_replicate, List.drop_replicate]

/-- There are exactly 17 declared fields. -/
theorem publicInputFields_length (pi : PublicInputsToml) :
    (publicInputFields pi).length = 17 := by
  simp [publicInputFields]

/-- Every declared field serialises to exactly 32 bytes. -/
theorem publicInputFields_mem_length (pi : PublicInputsToml) :
    ∀ f ∈ publicInputFields pi, f.length = 32 := by
  intro f hf
  unfold publicInputFields at hf
  rcases List.mem_append.mp hf with hf | hf
  · rcases List.mem_append.mp hf with hf | hf
    · simp at hf
      rcases hf with h | h | h | h | h <;> subst h <;>
        first
          | exact beBytes_length 32 _
          | exact u32ToBytes32_length _
    · obtain ⟨k, _, rfl⟩ := List.mem_map.mp hf
      exact u32ToBytes32_length _
  · obtain ⟨k, _, rfl⟩ := List.mem_map.mp hf
    exact beBytes_length 32 _

/-- The concatenated buffer is `17 * 32 = 544` bytes. -/
theorem buildPublicInputsBuffer_length (pi : PublicInputsToml) :
    (buildPublicInputsBuffer pi).length = 544 := by
  unfold buildPublicInputsBuffer
  rw [List.length_flatten]
  have hmap : (publicInputFields pi).map List.length =
      List.replicate 17 32 := by
    rw [List.eq_replicate_iff]
    refine ⟨by rw [List.length_map, publicInputFields_length], ?_⟩
    intro b hb
    obtain ⟨f, hf, rfl⟩ := List.mem_map.mp hb
    exact publicInputFields_mem_length pi f hf
  rw [hmap, List.sum_replicate]
  rfl

/-- Extracting 32-byte slices from a flat concatenation of 32-byte blocks
recovers the blocks. -/
theorem flatten_extract :
    ∀ (L : List (List Nat)) (j : Nat), (∀ f ∈ L, f.length = 32) →
    j < L.length → ((L.flatten).drop (32 * j)).take 32 = L.getD j [] := by
  intro L
  induction L with
  | nil => intro j _ hj; simp at hj
  | cons f L ih =>
      intro j hall hj
      cases j with
      | zero =>
          have hf : f.length = 32 := hall f (by simp)
          simp only [Nat.mul_zero, List.drop_zero, List.flatten_cons]
          rw [← hf, List.take_left]
          rfl
      | succ j =>
          have hf : f.length = 32 := hall f (by simp)
          rw [show 32 * (j + 1) = f.length + 32 * j by rw [hf]; ring]
          rw [List.flatten_cons, List.drop_append]
          exact ih j (fun g hg => hall g (by simp [hg])) (by simpa using hj)

/-- C8: the Merkle-variant public-input serialisation consists of exactly 17
fields of 32 bytes each (544 bytes total); byte slice `j` of the buffer is
declared field `j`; u32 values are right-aligned big-endian in their 32
bytes; and the declared order is `trap_merkle_root`, `move_x`, `move_y`,
`is_hit`, `trap_merkle_proof_length`, the 6 proof indices, then the 6 proof
siblings. -/
theorem build_public_inputs_spec (pi : PublicInputsToml) :
    (publicInputFields pi).length = 17 ∧
    (∀ f ∈ publicInputFields pi, f.length = 32) ∧
    (buildPublicInputsBuffer pi).length = 544 ∧
    (∀ j, j < 17 →
      ((buildPublicInputsBuffer pi).drop (32 * j)).take 32 =
        (publicInputFields pi).getD j []) ∧
    (∀ v, v < 2 ^ 32 →
      u32ToBytes32 v = List.replicate 28 0 ++ beBytes 4 v) ∧
    ((publicInputFields pi).getD 0 [] = fieldToBytes32 pi.trap_merkle_root ∧
     (publicInputFields pi).getD 1 [] = u32ToBytes32 pi.move_x ∧
     (publicInputFields pi).getD 2 [] = u32ToBytes32 pi.move_y ∧
     (publicInputFields pi).getD 3 [] = u32ToBytes32 pi.is_hit ∧
     (publicInputFields pi).getD 4 [] =
       u32ToBytes32 pi.trap_merkle_proof_length ∧
     (∀ k, k < 6 →
       (publicInputFields pi).getD (5 + k) [] =
         u1ToBytes32 ((pi.trap_merkle_proof_indices.get? k).getD 0) ∧
       (publicInputFields pi).getD (11 + k) [] =
         fieldToBytes32 ((pi.trap_merkle_proof_siblings.get? k).getD 0))) := by
  refine ⟨publicInputFields_length pi, publicInputFields_mem_length pi,
    buildPublicInputsBuffer_length pi, ?_, u32ToBytes32_right_aligned,
    rfl, rfl, rfl, rfl, rfl, ?_⟩
  · intro j hj
    exact flatten_extract (publicInputFields pi) j
      (publicInputFields_mem_length pi)
      (by rw [publicInputFields_length]; omega)
  · intro k hk
    interval_cases k <;> exact ⟨rfl, rfl⟩

/-- Witness for `build_public_inputs_spec` on a concrete `Prover.toml`:
the buffer is 544 bytes, slice 1 is the `move_x` field, and `5` serialises
right-aligned. -/
theorem build_public_inputs_spec_witness :
    (buildPublicInputsBuffer
      ⟨1234, 5, 6, 1, 6, [1, 0, 1, 0, 1, 0],
        [11, 22, 33, 44, 55, 66]⟩).length = 544 ∧
    ((buildPublicInputsBuffer
      ⟨1234, 5, 6, 1, 6, [1, 0, 1, 0, 1, 0],
        [11, 22, 33, 44, 55, 66]⟩).drop (32 * 1)).take 32 =
      (publicInputFields
        ⟨1234, 5, 6, 1, 6, [1, 0, 1, 0, 1, 0],
          [11, 22, 33, 44, 55, 66]⟩).getD 1 [] ∧
    u32ToBytes32 5 = List.replicate 28 0 ++ beBytes 4 5 :=
  ⟨(build_public_inputs_spec _).2.2.1,
   (build_public_inputs_spec
      ⟨1234, 5, 6, 1, 6, [1, 0, 1, 0, 1, 0],
        [11, 22, 33, 44, 55, 66]⟩).2.2.2.1 1 (by omega),
   (build_public_inputs_spec
      ⟨1234, 5, 6, 1, 6, [1, 0, 1, 0, 1, 0],
        [11, 22, 33, 44, 55, 66]⟩).2.2.2.2.1 5 (by norm_num)⟩

end TrapGrid
